import Mathlib

/-!
Verification of the evidence-grounded verdict synthesis pipeline
(`validation_and_reasoning.py`) of the fact-validation repository.

The Python source is shallowly embedded over `List Char` / `String`:

* `extract_json_from_response` (lines 9-38) becomes `stripJsonFences`
  composed with an executable JSON deserializer `jsonLoadsList` that models
  `json.loads` (strict RFC-8259 grammar: objects, arrays, strings with the
  common escapes, numbers kept as their lexeme, literals; the whole input
  must be consumed up to trailing whitespace; duplicate object keys keep
  the last value, as Python dicts do).
* `validate_facts_batch` (lines 41-155) becomes `validate_facts_batch`,
  with Python exceptions made explicit through `Except PyError`:
  attribute errors from calling `.get` on a non-dict, type errors from
  iterating a non-iterable or from `in` / indexing on unsupported values.
  The generation call `llm.invoke` (line 104), which the function does not
  guard, is modelled by `validate_facts_batch_gen` taking the call's
  outcome as an `Except`; `main.py`'s try/except around the whole batch
  (lines 46-50) is `main_validation_step`.
* Python string operations are re-implemented on `List Char` with fuel
  where needed so that every definition evaluates inside the kernel:
  `pySplit` is `str.split`, `pyIn` is the `in` substring test, `stripChars`
  is `str.strip` with a character class, `pyReplaceAll` is `str.replace`
  with an empty replacement, `pyIntL` models `int()` on decimal strings
  (optional surrounding whitespace and sign; numeric-literal underscores
  and non-ASCII digits are not modelled, none of which the pipeline's
  citation tokens use).
* Evidence items are embedded in the dict shape `\x7btitle, snippet, url\x7d`
  with optional fields (a missing key is `none`); this is the shape the
  retrieval layer `web_search.py` produces.  The source's extra tolerance
  for list/tuple-shaped or scalar evidence items (lines 70-73, 143) is
  outside the embedded domain.
* `list(set(urls))` (line 152) returns the distinct URLs in an order
  Python leaves unspecified; `pyListSet` fixes first-occurrence order and
  all theorems about it are stated at the level of membership and
  duplicate-freedom.
-/

/-! ## Characters written by code point

Some characters are written via `Char.ofNat` so the file stays free of
delimiter characters outside string literals. -/

def btk : Char := Char.ofNat 96

def lbrace : Char := Char.ofNat 123

def rbrace : Char := Char.ofNat 125

def dquote : Char := Char.ofNat 34

def squote : Char := Char.ofNat 39

def lbrack : Char := Char.ofNat 91

def rbrack : Char := Char.ofNat 93

/-! ## Python string primitives on `List Char` -/

/-- Python `str.strip()` whitespace class (ASCII subset). -/
def pyWs (c : Char) : Bool := c.isWhitespace

/-- Strip characters satisfying `p` from both ends: `str.strip(chars)`. -/
def stripChars (p : Char → Bool) (l : List Char) : List Char :=
  (l.dropWhile p).rdropWhile p

/-- One step bound for `pySplitF`; fuel is the input length, consumed at
most one unit per character. -/
def pySplitF (sep : List Char) : Nat → List Char → List (List Char)
  | _, [] => [[]]
  | 0, l => [l]
  | Nat.succ f, c :: rest =>
    if sep.isPrefixOf (c :: rest) then
      [] :: pySplitF sep f (List.drop (sep.length - 1) rest)
    else
      match pySplitF sep f rest with
      | [] => [[c]]
      | h :: t => (c :: h) :: t

/-- Python `str.split(sep)` for a non-empty separator. -/
def pySplit (sep l : List Char) : List (List Char) := pySplitF sep l.length l

/-- Python substring test `sep in l`. -/
def pyIn (sep : List Char) : List Char → Bool
  | [] => sep.isEmpty
  | c :: rest => sep.isPrefixOf (c :: rest) || pyIn sep rest

/-- Python `str.replace(pat, "")`: drop every occurrence of `pat`. -/
def pyReplaceAll (pat l : List Char) : List Char := (pySplit pat l).flatten

/-- Digits of a decimal numeral, or `none` when empty or non-digit. -/
def digitsToNat : List Char → Option Nat
  | [] => none
  | l =>
    if l.all Char.isDigit then
      some (l.foldl (fun a c => a * 10 + (c.toNat - 48)) 0)
    else none

/-- Python `int()` on a decimal string: optional surrounding whitespace,
optional sign, at least one digit. -/
def pyIntL (l : List Char) : Option Int :=
  match stripChars pyWs l with
  | [] => none
  | c :: rest =>
    if c = '+' then (digitsToNat rest).map Int.ofNat
    else if c = '-' then (digitsToNat rest).map (fun n => -(n : Int))
    else (digitsToNat (c :: rest)).map Int.ofNat

/-- First-occurrence deduplication with an accumulator of already seen
elements; `pyListSet` below instantiates it to model `list(set(-))`. -/
def dedupAcc (seen : List String) : List String → List String
  | [] => []
  | x :: xs =>
    if seen.contains x then dedupAcc seen xs
    else x :: dedupAcc (x :: seen) xs

/-- `list(set(l))` for a list of strings, fixing first-occurrence order
(Python's set order is unspecified; theorems use membership and nodup). -/
def pyListSet (l : List String) : List String := dedupAcc [] l

/-! ## JSON values and `json.loads` -/

/-- A parsed JSON value.  Number lexemes are kept verbatim, which is all
the pipeline ever does with them. -/
inductive JsonVal where
  | null
  | bool (b : Bool)
  | num (lexeme : String)
  | str (s : String)
  | arr (elems : List JsonVal)
  | obj (fields : List (String × JsonVal))

/-- Lookup in a parsed JSON object (`dict.get`). -/
def dictGet (fields : List (String × JsonVal)) (k : String) : Option JsonVal :=
  (fields.find? (fun p => p.1 == k)).map (fun p => p.2)

/-- Dict insertion with Python semantics: an existing key keeps its
position and is overwritten, a new key is appended. -/
def dictInsert (fields : List (String × JsonVal)) (k : String) (v : JsonVal) :
    List (String × JsonVal) :=
  if fields.any (fun p => p.1 == k) then
    fields.map (fun p => if p.1 == k then (k, v) else p)
  else fields ++ [(k, v)]

/-- JSON whitespace. -/
def jsonWs (c : Char) : Bool := c = ' ' || c = '\t' || c = '\n' || c = '\r'

def skipWs (l : List Char) : List Char := l.dropWhile jsonWs

/-- Body of a JSON string after the opening quote: returns the decoded
characters and the input after the closing quote. -/
def parseStringBody : List Char → Option (List Char × List Char)
  | [] => none
  | c :: rest =>
    if c = dquote then some ([], rest)
    else if c = '\\' then
      match rest with
      | [] => none
      | e :: rest2 =>
        if e = 'u' then
          match rest2 with
          | a :: b :: c3 :: d :: rest3 =>
            if isHex a && isHex b && isHex c3 && isHex d then
              (parseStringBody rest3).map (fun p =>
                (Char.ofNat (4096 * hexVal a + 256 * hexVal b + 16 * hexVal c3 + hexVal d) :: p.1,
                 p.2))
            else none
          | _ => none
        else
          match escChar e with
          | some ch => (parseStringBody rest2).map (fun p => (ch :: p.1, p.2))
          | none => none
    else if c.toNat < 32 then none
    else (parseStringBody rest).map (fun p => (c :: p.1, p.2))
where
  isHex (c : Char) : Bool :=
    c.isDigit || (97 ≤ c.toNat && c.toNat ≤ 102) || (65 ≤ c.toNat && c.toNat ≤ 70)
  hexVal (c : Char) : Nat :=
    if c.isDigit then c.toNat - 48
    else if c.toNat ≥ 97 then c.toNat - 87
    else c.toNat - 55
  escChar (e : Char) : Option Char :=
    if e = dquote then some dquote
    else if e = '\\' then some '\\'
    else if e = '/' then some '/'
    else if e = 'b' then some (Char.ofNat 8)
    else if e = 'f' then some (Char.ofNat 12)
    else if e = 'n' then some '\n'
    else if e = 'r' then some '\r'
    else if e = 't' then some '\t'
    else none

/-- Lexeme of a JSON number (RFC 8259 grammar), returned verbatim with
the remaining input. -/
def parseNumberTok (l : List Char) : Option (List Char × List Char) :=
  let (sign, l1) :=
    match l with
    | c :: rest => if c = '-' then ([c], rest) else ([], l)
    | [] => ([], l)
  match l1 with
  | [] => none
  | c :: rest =>
    if !c.isDigit then none
    else
      let (intPart, l2) :=
        if c = '0' then ([c], rest)
        else (c :: rest.takeWhile Char.isDigit, rest.dropWhile Char.isDigit)
      let (fracPart, l3) :=
        match l2 with
        | d :: ds =>
          if d = '.' then
            let digs := ds.takeWhile Char.isDigit
            if digs.isEmpty then ([], l2) else (d :: digs, ds.dropWhile Char.isDigit)
          else ([], l2)
        | [] => ([], l2)
      if fracPart.isEmpty && !(match l2 with | d :: _ => d ≠ '.' | [] => true) then none
      else
        let (expPart, l4) :=
          match l3 with
          | e :: es =>
            if e = 'e' || e = 'E' then
              let (esign, es1) :=
                match es with
                | s :: ss => if s = '+' || s = '-' then ([s], ss) else ([], es)
                | [] => ([], es)
              let digs := es1.takeWhile Char.isDigit
              if digs.isEmpty then ([], l3)
              else (e :: (esign ++ digs), es1.dropWhile Char.isDigit)
            else ([], l3)
          | [] => ([], l3)
        some (sign ++ intPart ++ fracPart ++ expPart, l4)

/-- Parser modes: a value, the members of an object being accumulated, or
the elements of an array being accumulated. -/
inductive PMode where
  | val
  | members (acc : List (String × JsonVal))
  | elems (acc : List JsonVal)

/-- Fueled recursive-descent JSON parser; fuel decreases on every
recursive call, so the definition is structural and kernel-evaluable. -/
def parseP : Nat → PMode → List Char → Option (JsonVal × List Char)
  | 0, _, _ => none
  | Nat.succ f, PMode.val, l =>
    match skipWs l with
    | [] => none
    | c :: rest =>
      if c = lbrace then
        match skipWs rest with
        | d :: rest2 =>
          if d = rbrace then some (JsonVal.obj [], rest2)
          else parseP f (PMode.members []) (skipWs rest)
        | [] => none
      else if c = lbrack then
        match skipWs rest with
        | d :: rest2 =>
          if d = rbrack then some (JsonVal.arr [], rest2)
          else parseP f (PMode.elems []) (skipWs rest)
        | [] => none
      else if c = dquote then
        (parseStringBody rest).map (fun p => (JsonVal.str (String.mk p.1), p.2))
      else if ("true".toList).isPrefixOf (c :: rest) then
        some (JsonVal.bool true, (c :: rest).drop 4)
      else if ("false".toList).isPrefixOf (c :: rest) then
        some (JsonVal.bool false, (c :: rest).drop 5)
      else if ("null".toList).isPrefixOf (c :: rest) then
        some (JsonVal.null, (c :: rest).drop 4)
      else
        (parseNumberTok (c :: rest)).map (fun p => (JsonVal.num (String.mk p.1), p.2))
  | Nat.succ f, PMode.members acc, l =>
    match skipWs l with
    | c :: rest =>
      if c = dquote then
        match parseStringBody rest with
        | none => none
        | some (key, rest2) =>
          match skipWs rest2 with
          | d :: rest3 =>
            if d = ':' then
              match parseP f PMode.val rest3 with
              | none => none
              | some (v, rest4) =>
                match skipWs rest4 with
                | e :: rest5 =>
                  if e = ',' then
                    parseP f (PMode.members (dictInsert acc (String.mk key) v)) rest5
                  else if e = rbrace then
                    some (JsonVal.obj (dictInsert acc (String.mk key) v), rest5)
                  else none
                | [] => none
            else none
          | [] => none
      else none
    | [] => none
  | Nat.succ f, PMode.elems acc, l =>
    match parseP f PMode.val l with
    | none => none
    | some (v, rest) =>
      match skipWs rest with
      | c :: rest2 =>
        if c = ',' then parseP f (PMode.elems (acc ++ [v])) rest2
        else if c = rbrack then some (JsonVal.arr (acc ++ [v]), rest2)
        else none
      | [] => none

/-- `json.loads` on a character list: parse one JSON value and require
that only whitespace follows. -/
def jsonLoadsList (l : List Char) : Option JsonVal :=
  match parseP (2 * l.length + 2) PMode.val l with
  | some (v, rest) => if skipWs rest = [] then some v else none
  | none => none

/-! ## The response parser (`extract_json_from_response`, lines 9-38) -/

def jsonTagL : List Char := [btk, btk, btk, 'j', 's', 'o', 'n']

def fenceL : List Char := [btk, btk, btk]

/-- Membership in Python's `lstrip("json")` character class. -/
def inJsonSet (c : Char) : Bool := c = 'j' || c = 's' || c = 'o' || c = 'n'

/-- Lines 14-29: strip whitespace, undo code fences, drop a leftover
language-tag and stray backticks. -/
def stripJsonFences (l : List Char) : List Char :=
  let msg := stripChars pyWs l
  let msg1 :=
    if pyIn jsonTagL msg then
      let m := (pySplit jsonTagL msg).getD 1 []
      if pyIn fenceL m then (pySplit fenceL m).headD [] else m
    else if pyIn fenceL msg then
      let parts := pySplit fenceL msg
      if 3 ≤ parts.length then parts.getD 1 [] else parts.getLastD []
    else msg
  stripChars pyWs (stripChars (fun c => c == btk) (msg1.dropWhile inJsonSet))

/-- Lines 9-38: the response parser; `none` is the parse-failure signal
(the Python function returns `None`). -/
def extract_json_from_response (msg : String) : Option JsonVal :=
  jsonLoadsList (stripJsonFences msg.toList)

/-! ## Data model of the batch validator -/

/-- An evidence item in the dict shape produced by the retrieval layer:
optional `title`, `snippet`, `url` keys (`none` models a missing key). -/
structure Evidence where
  title : Option String := none
  snippet : Option String := none
  url : Option String := none

/-- Python exceptions that `validate_facts_batch` can raise, made
explicit. -/
inductive PyError where
  | attributeError
  | typeError
  | keyError
  | generationError

/-- One per-claim record of the output mapping (verdict and reasoning are
copied through as parsed JSON values). -/
structure FactResult where
  verdict : JsonVal
  reasoning : JsonVal
  supporting_urls : List String

/-- The batch-level fallback / per-claim error record. -/
def errorRecord (reason : String) : FactResult :=
  ⟨JsonVal.str "Error", JsonVal.str reason, []⟩

/-! ## Citation resolver (lines 134-147) -/

def evidPat : List Char := "EVIDENCE".toList

/-- Lines 136-145 for one string citation token: normalize, split on a
dot, parse both components as integers, check the claim index and the
evidence range, and read a non-empty URL.  Any failure yields `none`,
which is what the surrounding `except Exception: continue` produces. -/
def resolveParts (idx : Nat) (evl : List Evidence) : List (List Char) → Option String
  | [p1, p2] =>
    match pyIntL p1, pyIntL p2 with
    | some fnum, some enum =>
      if fnum == (idx : Int) && 1 ≤ enum && enum ≤ (evl.length : Int) then
        match evl.get? (enum - 1).toNat with
        | some ev =>
          match ev.url with
          | some u => if u == "" then none else some u
          | none => none
        | none => none
      else none
    | _, _ => none
  | _ => none

def resolveTokenStr (idx : Nat) (evl : List Evidence) (s : String) : Option String :=
  resolveParts idx evl (pySplit ['.'] (stripChars pyWs (pyReplaceAll evidPat s.toList)))

/-- A cited-evidence element that is not a string makes `.replace` raise
an `AttributeError`, which the `except` clause turns into a skip. -/
def resolveToken (idx : Nat) (evl : List Evidence) : JsonVal → Option String
  | JsonVal.str s => resolveTokenStr idx evl s
  | _ => none

/-- Lines 134-147 followed by line 152: collect the resolved URLs of all
citation tokens and deduplicate (`list(set(urls))`). -/
def supporting_urls_of (idx : Nat) (evl : List Evidence) (cited : List JsonVal) :
    List String :=
  pyListSet (cited.filterMap (resolveToken idx evl))

/-! ## Per-claim processing (lines 119-153) -/

/-- Python iteration over a parsed JSON value: lists yield elements,
strings yield one-character strings, dicts yield their keys; numbers,
booleans and `None` are not iterable. -/
def pyIterate : JsonVal → Option (List JsonVal)
  | JsonVal.arr l => some l
  | JsonVal.str s => some (s.toList.map (fun c => JsonVal.str (String.mk [c])))
  | JsonVal.obj fields => some (fields.map (fun p => JsonVal.str p.1))
  | _ => none

/-- Lines 129-153 for the claim at 1-based position `idx`: read `verdict`
(default `"Uncertain"`), `reasoning` (default `""`) and `cited_evidence`
(default `[]`) from the claim's sub-value and resolve the citations.
A non-dict sub-value raises `AttributeError` at the first `.get`; a
non-iterable `cited_evidence` raises `TypeError` at the `for`. -/
def processFact (idx : Nat) (evl : List Evidence) (llm_fact : JsonVal) :
    Except PyError FactResult :=
  match llm_fact with
  | JsonVal.obj fields =>
    let verdict := (dictGet fields "verdict").getD (JsonVal.str "Uncertain")
    let reasoning := (dictGet fields "reasoning").getD (JsonVal.str "")
    let cited := (dictGet fields "cited_evidence").getD (JsonVal.arr [])
    match pyIterate cited with
    | none => Except.error PyError.typeError
    | some items => Except.ok ⟨verdict, reasoning, supporting_urls_of idx evl items⟩
  | _ => Except.error PyError.attributeError

/-- Python `key in llm_results` (line 121) for a parsed JSON value:
substring test on strings, element equality on lists, key membership on
dicts; `TypeError` otherwise. -/
def pyContainsKey (llm : JsonVal) (key : String) : Except PyError Bool :=
  match llm with
  | JsonVal.obj fields => Except.ok (fields.any (fun p => p.1 == key))
  | JsonVal.str s => Except.ok (pyIn key.toList s.toList)
  | JsonVal.arr l =>
    Except.ok (l.any (fun x => match x with | JsonVal.str s => s == key | _ => false))
  | _ => Except.error PyError.typeError

/-- Python `llm_results[key]` (line 129), reached only after the `in`
test succeeded: dict lookup, `TypeError` on strings and lists. -/
def pyGetItem (llm : JsonVal) (key : String) : Except PyError JsonVal :=
  match llm with
  | JsonVal.obj fields =>
    match dictGet fields key with
    | some v => Except.ok v
    | none => Except.error PyError.keyError
  | _ => Except.error PyError.typeError

/-- Lines 116-153: walk the claims in input order, pairing the claim at
1-based position `idx` with the response key `fact_idx`; a missing key
yields the per-claim error record, a present key is processed by
`processFact`; the first raised exception aborts the whole walk. -/
def processClaims (llm : JsonVal) : Nat → List (String × List Evidence) →
    Except PyError (List (String × FactResult))
  | _, [] => Except.ok []
  | idx, (fact, evl) :: rest =>
    match pyContainsKey llm ("fact_" ++ toString idx) with
    | Except.error e => Except.error e
    | Except.ok false =>
      match processClaims llm (idx + 1) rest with
      | Except.error e => Except.error e
      | Except.ok r => Except.ok ((fact, errorRecord "No output from LLM") :: r)
    | Except.ok true =>
      match pyGetItem llm ("fact_" ++ toString idx) with
      | Except.error e => Except.error e
      | Except.ok llm_fact =>
        match processFact idx evl llm_fact with
        | Except.error e => Except.error e
        | Except.ok res =>
          match processClaims llm (idx + 1) rest with
          | Except.error e => Except.error e
          | Except.ok r => Except.ok ((fact, res) :: r)

/-! ## Batch orchestration (lines 103-155) -/

/-- Lines 108-155, parameterised by the raw generated text: on a parse
failure every claim gets the batch fallback record, otherwise the claims
are processed one by one. -/
def validate_facts_batch (facts : List (String × List Evidence)) (msg : String) :
    Except PyError (List (String × FactResult)) :=
  match extract_json_from_response msg with
  | none =>
    Except.ok (facts.map (fun p => (p.1, errorRecord "Failed to parse LLM response")))
  | some llm => processClaims llm 1 facts

/-- Lines 103-155 including the unguarded `llm.invoke` call: an exception
from the generation capability propagates out of `validate_facts_batch`
unchanged; a returned string is stripped (line 105) and validated. -/
def validate_facts_batch_gen (facts : List (String × List Evidence))
    (gen : Except PyError String) : Except PyError (List (String × FactResult)) :=
  match gen with
  | Except.error e => Except.error e
  | Except.ok content =>
    validate_facts_batch facts (String.mk (stripChars pyWs content.toList))

/-- `main.py` lines 46-50: the caller catches any exception from
`validate_facts_batch`, prints a message and continues with no results
for the batch. -/
def main_validation_step (facts : List (String × List Evidence))
    (gen : Except PyError String) : Option (List (String × FactResult)) :=
  (validate_facts_batch_gen facts gen).toOption

/-! ## Evidence formatting and prompt construction (lines 61-101) -/

/-- `'='*80`. -/
def eqBar : String := String.mk (List.replicate 80 '=')

/-- Lines 75-80: one formatted evidence line group for evidence item `i`
of claim `idx` (dict shape; missing keys default to `""`). -/
def evidence_block (idx i : Nat) (ev : Evidence) : String :=
  "  EVIDENCE " ++ toString idx ++ "." ++ toString i ++ ":\n" ++
  "    Title: " ++ ev.title.getD "" ++ "\n" ++
  "    Snippet: " ++ ev.snippet.getD "" ++ "\n" ++
  "    URL: " ++ ev.url.getD "" ++ "\n"

/-- Lines 63-81: the block for one claim, a delimited header followed by
the newline-joined evidence groups. -/
def fact_block (idx : Nat) (fact : String) (evl : List Evidence) : String :=
  "\n" ++ eqBar ++ "\nFACT #" ++ toString idx ++ ": " ++ fact ++ "\n" ++ eqBar ++ "\n" ++
  String.intercalate "\n"
    ((List.enumFrom 1 evl).map (fun p => evidence_block idx p.1 p.2))

/-- Lines 61-82: the list `facts_text`, one block per claim, in input
order, with 1-based positions from `enumerate(..., 1)`. -/
def facts_text (facts : List (String × List Evidence)) : List String :=
  (List.enumFrom 1 facts).map (fun p => fact_block p.1 p.2.1 p.2.2)

/-- One character of Python `repr` for a string quoted with `q`. -/
def pyReprChar (q c : Char) : List Char :=
  if c = '\\' then ['\\', '\\']
  else if c = q then ['\\', q]
  else if c = '\n' then ['\\', 'n']
  else if c = '\r' then ['\\', 'r']
  else if c = '\t' then ['\\', 't']
  else [c]

/-- Python `repr` of a string: single quotes, switching to double quotes
when the text contains a single quote but no double quote; backslash,
quote and the common control characters are escaped.  (`\xhh` escaping of
other control characters is outside the embedded domain.) -/
def pyReprStr (s : String) : List Char :=
  let l := s.toList
  let q := if l.contains squote && !(l.contains dquote) then dquote else squote
  q :: ((l.map (pyReprChar q)).flatten ++ [q])

/-- Python `str` of a list of strings, as produced by interpolating the
list `facts_text` into the f-string on line 98: bracketed, comma-joined
`repr`s of the elements. -/
def pyStrOfList (xs : List String) : String :=
  String.mk ((lbrack :: (List.intercalate [',', ' '] (xs.map pyReprStr))) ++ [rbrack])

/-- The f-string text before the `facts_text` interpolation (lines
84-97). -/
def promptBefore : String :=
  "\nYou are an expert fact-checking assistant for UPSC current affairs.\n" ++
  "Analyze the facts and evidence provided below.\n\n" ++
  "Respond with a single JSON object. Do not include any text before or after the JSON.\n" ++
  "The JSON object must have keys \"fact_1\", \"fact_2\", ..., corresponding to each fact number.\n\n" ++
  "For each fact key (e.g., \"fact_1\"), the value must be an object with exactly three keys:\n" ++
  "1.  \"verdict\": (string) Must be one of \"Supported\", \"Refuted\", or \"Cannot Conclude\".\n" ++
  "    -Be decisive. Use \"Cannot Conclude\" ONLY if the evidence is truly    missing, or insufficient.\n" ++
  "2.  \"reasoning\": (string) A brief 1-2 sentence explanation for your verdict.\n" ++
  "3.  \"cited_evidence\": (array of strings) A list of evidence citations (e.g., [\"EVIDENCE 1.1\", \"EVIDENCE 1.2\"]) that directly support your verdict. If no evidence is used, return an empty array [].\n\n" ++
  "Here are the facts and evidence:\n"

/-- The f-string text after the interpolation (lines 99-101). -/
def promptAfter : String := "\n\nReturn ONLY the single JSON object.\n"

/-- Lines 84-101: the prompt actually sent to the generation capability.
Line 98 interpolates the Python *list* `facts_text` (it is never joined),
so the prompt embeds `str(list)` — bracketed, quoted, escaped element
`repr`s — rather than the concatenated blocks. -/
def prompt_text (facts : List (String × List Evidence)) : String :=
  promptBefore ++ pyStrOfList (facts_text facts) ++ promptAfter

/-! ## Shape predicates and spec-side statements -/

/-- `True` when iterating the value raises `TypeError` in Python. -/
def nonIterable (v : JsonVal) : Bool := (pyIterate v).isNone

/-- A `fact_i` sub-value that `processFact` handles without raising: a
dict whose `cited_evidence` entry, when present, is iterable. -/
def factShapeOk : JsonVal → Bool
  | JsonVal.obj fields =>
    match dictGet fields "cited_evidence" with
    | some w => !nonIterable w
    | none => true
  | _ => false

/-- The verdict vocabulary of the produced-output contract. -/
def allowedVerdicts : List String := ["Supported", "Refuted", "Cannot Conclude", "Error"]

/-- Wrap a text in a fenced code block tagged `json`. -/
def wrapJson (s : String) : String := "```json\n" ++ s ++ "\n```"

/-- Wrap a text in a bare fenced code block. -/
def wrapFence (s : String) : String := "```\n" ++ s ++ "\n```"

/-- Spec-side statement of citation resolution, following the claim's
words: the token, after removing `EVIDENCE` and whitespace and splitting
on a dot, parses into exactly two integers `(fnum, enum)` with
`fnum = idx` and `1 ≤ enum ≤ L`, and the evidence entry at 1-based
position `enum` stores the non-empty URL `u`. -/
def citesUrl (idx : Nat) (evl : List Evidence) (tok : String) (u : String) : Prop :=
  ∃ p1 p2 fnum enum,
    pySplit ['.'] (stripChars pyWs (pyReplaceAll evidPat tok.toList)) = [p1, p2] ∧
    pyIntL p1 = some fnum ∧ pyIntL p2 = some enum ∧
    fnum = (idx : Int) ∧ 1 ≤ enum ∧ enum ≤ (evl.length : Int) ∧
    ∃ ev u0, evl.get? (enum - 1).toNat = some ev ∧ ev.url = some u0 ∧ u0 ≠ "" ∧ u = u0

/-- Spec-side statement of a malformed citation token, following the
claim's words: wrong arity after splitting on a dot, non-integer
components, or out-of-range indices. -/
def tokenMalformed (idx : Nat) (evl : List Evidence) (tok : String) : Bool :=
  match pySplit ['.'] (stripChars pyWs (pyReplaceAll evidPat tok.toList)) with
  | [p1, p2] =>
    match pyIntL p1, pyIntL p2 with
    | some fnum, some enum =>
      !(fnum == (idx : Int) && 1 ≤ enum && enum ≤ (evl.length : Int))
    | _, _ => true
  | _ => true

/-! ## Concrete inputs used by witnesses and counterexamples -/

/-- A single-claim batch with no evidence. -/
def exFacts1 : List (String × List Evidence) := [("c", [])]

/-- A two-claim batch with no evidence. -/
def exFacts2 : List (String × List Evidence) := [("c1", []), ("c2", [])]

/-- One evidence item with title, snippet and URL. -/
def exEv : Evidence := ⟨some "t", some "s", some "u"⟩

/-- A batch whose only evidence snippet spans two lines. -/
def exFacts7 : List (String × List Evidence) := [("c", [⟨some "t", some "s1\ns2", some "u"⟩])]

/-- A clean JSON object text. -/
def exJson : String := "\x7b\"a\": 1\x7d"

/-- A well-formed response for `fact_1` with one citation-free verdict. -/
def exMsgSupported : String :=
  "\x7b\"fact_1\": \x7b\"verdict\": \"Supported\", \"reasoning\": \"ok\", \"cited_evidence\": []\x7d\x7d"

/-- The parsed fields of `exMsgSupported`. -/
def exFieldsSupported : List (String × JsonVal) :=
  [("fact_1", JsonVal.obj [("verdict", JsonVal.str "Supported"),
    ("reasoning", JsonVal.str "ok"), ("cited_evidence", JsonVal.arr [])])]

/-- A response whose `fact_1` sub-object is empty. -/
def exMsgEmptyFact : String := "\x7b\"fact_1\": \x7b\x7d\x7d"

/-- A response mapping `fact_1` to a bare string instead of an object. -/
def exMsgBadFact : String := "\x7b\"fact_1\": \"oops\"\x7d"

/-! # Lemmas about the string primitives -/

theorem pySplitF_ne_nil (sep : List Char) (f : Nat) (l : List Char) :
    pySplitF sep f l ≠ [] := by
  match f, l with
  | _, [] => simp [pySplitF]
  | 0, c :: rest => simp [pySplitF]
  | Nat.succ g, c :: rest =>
    simp only [pySplitF]
    split
    · simp
    · split <;> simp

theorem pySplitF_fuel (sep : List Char) :
    ∀ (f₁ : Nat) (l : List Char) (f₂ : Nat), l.length ≤ f₁ → l.length ≤ f₂ →
      pySplitF sep f₁ l = pySplitF sep f₂ l := by
  intro f₁
  induction f₁ with
  | zero =>
    intro l f₂ h1 _
    match l with
    | [] => cases f₂ <;> rfl
    | c :: rest => simp at h1
  | succ g ih =>
    intro l f₂ h1 h2
    match l with
    | [] => cases f₂ <;> rfl
    | c :: rest =>
      match f₂ with
      | 0 => simp at h2
      | Nat.succ h =>
        simp only [pySplitF]
        by_cases hp : sep.isPrefixOf (c :: rest) = true
        · rw [if_pos hp, if_pos hp,
            ih (List.drop (sep.length - 1) rest) h
              (by simp only [List.length_drop]; simp at h1; omega)
              (by simp only [List.length_drop]; simp at h2; omega)]
        · rw [if_neg hp, if_neg hp,
            ih rest h (by simp at h1; omega) (by simp at h2; omega)]

theorem pySplit_nil (sep : List Char) : pySplit sep [] = [[]] := rfl

theorem pySplit_ne_nil (sep l : List Char) : pySplit sep l ≠ [] :=
  pySplitF_ne_nil sep l.length l

theorem pySplit_cons_neg (sep : List Char) (c : Char) (l : List Char)
    (hp : sep.isPrefixOf (c :: l) = false) :
    pySplit sep (c :: l) =
      match pySplit sep l with
      | [] => [[c]]
      | h :: t => (c :: h) :: t := by
  show pySplitF sep (l.length + 1) (c :: l) = _
  simp only [pySplitF, hp, Bool.false_eq_true, if_false]
  rfl

theorem pySplit_sep_append (s : Char) (sep' b : List Char) :
    pySplit (s :: sep') ((s :: sep') ++ b) = [] :: pySplit (s :: sep') b := by
  have hp : (s :: sep').isPrefixOf (s :: (sep' ++ b)) = true := by
    rw [← List.cons_append]
    exact List.isPrefixOf_iff_prefix.mpr (List.prefix_append _ b)
  show pySplitF (s :: sep') (s :: (sep' ++ b)).length (s :: (sep' ++ b)) = _
  simp only [List.length_cons, List.length_append, pySplitF, hp, if_true]
  have hdrop : List.drop (sep'.length + 1 - 1) (sep' ++ b) = b := by
    rw [Nat.add_sub_cancel]
    exact List.drop_left sep' b
  rw [hdrop]
  exact congrArg (List.cons [])
    (pySplitF_fuel _ _ _ _ (by simp) (Nat.le_refl _))

theorem pySplit_no_occur (sep : List Char) :
    ∀ (l : List Char), pyIn sep l = false → pySplit sep l = [l] := by
  intro l
  induction l with
  | nil => intro _; rfl
  | cons c rest ih =>
    intro h
    simp only [pyIn, Bool.or_eq_false_iff] at h
    rw [pySplit_cons_neg sep c rest h.1, ih h.2]

theorem pySplit_append_left (s : Char) (sep' : List Char) :
    ∀ (a b : List Char), (∀ c ∈ a, c ≠ s) →
      ∃ h t, pySplit (s :: sep') b = h :: t ∧
        pySplit (s :: sep') (a ++ b) = (a ++ h) :: t := by
  intro a
  induction a with
  | nil =>
    intro b _
    match hb : pySplit (s :: sep') b with
    | [] => exact absurd hb (pySplit_ne_nil _ b)
    | h :: t => exact ⟨h, t, rfl, rfl⟩
  | cons c a' ih =>
    intro b hA
    obtain ⟨h, t, hb, heq⟩ := ih b (fun x hx => hA x (List.mem_cons_of_mem c hx))
    refine ⟨h, t, hb, ?_⟩
    have hc : c ≠ s := hA c (List.mem_cons_self c a')
    have hp : (s :: sep').isPrefixOf (c :: (a' ++ b)) = false := by
      simp only [List.isPrefixOf, Bool.and_eq_false_iff]
      exact Or.inl (beq_eq_false_iff_ne.mpr (Ne.symm hc))
    rw [List.cons_append, pySplit_cons_neg _ _ _ hp, heq]
    rfl

theorem pyIn_cons_neg (sep : List Char) (c : Char) (l : List Char)
    (hp : sep.isPrefixOf (c :: l) = false) :
    pyIn sep (c :: l) = pyIn sep l := by
  simp [pyIn, hp]

theorem pyIn_self_append (s : Char) (sep' b : List Char) :
    pyIn (s :: sep') ((s :: sep') ++ b) = true := by
  have hp : (s :: sep').isPrefixOf (s :: (sep' ++ b)) = true := by
    rw [← List.cons_append]
    exact List.isPrefixOf_iff_prefix.mpr (List.prefix_append _ b)
  show ((s :: sep').isPrefixOf (s :: (sep' ++ b)) || pyIn (s :: sep') (sep' ++ b)) = true
  rw [hp, Bool.true_or]

theorem pyIn_append_left (s : Char) (sep' : List Char) :
    ∀ (a b : List Char), (∀ c ∈ a, c ≠ s) →
      pyIn (s :: sep') (a ++ b) = pyIn (s :: sep') b := by
  intro a
  induction a with
  | nil => intro b _; rfl
  | cons c a' ih =>
    intro b hA
    have hc : c ≠ s := hA c (List.mem_cons_self c a')
    have hp : (s :: sep').isPrefixOf (c :: (a' ++ b)) = false := by
      simp only [List.isPrefixOf, Bool.and_eq_false_iff]
      exact Or.inl (beq_eq_false_iff_ne.mpr (Ne.symm hc))
    rw [List.cons_append, pyIn_cons_neg _ _ _ hp]
    exact ih b (fun x hx => hA x (List.mem_cons_of_mem c hx))

theorem pyIn_append_right (sep : List Char) :
    ∀ (a b : List Char), pyIn sep b = true → pyIn sep (a ++ b) = true := by
  intro a
  induction a with
  | nil => intro b h; exact h
  | cons c a' ih =>
    intro b h
    rw [List.cons_append]
    simp only [pyIn, Bool.or_eq_true]
    exact Or.inr (ih b h)

theorem pyIn_nil_of_ne_nil (sep : List Char) (h : sep ≠ []) : pyIn sep [] = false := by
  cases sep with
  | nil => exact absurd rfl h
  | cons s sep' => rfl

theorem stripChars_cons_pos (p : Char → Bool) (a : Char) (l : List Char)
    (h : p a = true) : stripChars p (a :: l) = stripChars p l := by
  simp [stripChars, List.dropWhile_cons, h]

theorem stripChars_concat_pos (p : Char → Bool) (l : List Char) (b : Char)
    (h : p b = true) : stripChars p (l ++ [b]) = stripChars p l := by
  unfold stripChars
  rw [List.dropWhile_append]
  split
  · next he =>
    have : List.dropWhile p [b] = [] := by simp [List.dropWhile_cons, h]
    rw [this, List.isEmpty_iff.mp he, List.rdropWhile_nil]
  · exact List.rdropWhile_concat_pos p _ b h

theorem stripChars_cons_concat (p : Char → Bool) (a b : Char) (m : List Char)
    (ha : p a = false) (hb : p b = false) :
    stripChars p (a :: (m ++ [b])) = a :: (m ++ [b]) := by
  unfold stripChars
  rw [List.dropWhile_cons, ha]
  simp only [Bool.false_eq_true, if_false]
  rw [show a :: (m ++ [b]) = (a :: m) ++ [b] from rfl]
  exact List.rdropWhile_concat_neg p (a :: m) b (by simp [hb])

theorem stripChars_eq_self_of_all (p : Char → Bool) (l : List Char)
    (h : ∀ c ∈ l, p c = false) : stripChars p l = l := by
  unfold stripChars
  have hd : List.dropWhile p l = l := by
    cases l with
    | nil => rfl
    | cons c t => rw [List.dropWhile_cons, h c (List.mem_cons_self c t)]; simp
  rw [hd]
  rw [List.rdropWhile_eq_self_iff]
  intro hl
  rw [h _ (List.getLast_mem hl)]
  simp

theorem mem_stripChars (p : Char → Bool) (l : List Char) (c : Char)
    (h : c ∈ stripChars p l) : c ∈ l := by
  unfold stripChars at h
  have h1 := ((List.rdropWhile_prefix p (List.dropWhile p l)).sublist).mem h
  exact (List.dropWhile_sublist p).mem h1

theorem stripChars_idem (p : Char → Bool) (l : List Char) :
    stripChars p (stripChars p l) = stripChars p l := by
  generalize hd : stripChars p l = d
  unfold stripChars at hd ⊢
  have hdw : List.dropWhile p d = d := by
    cases hdd : d with
    | nil => rfl
    | cons c t =>
      rw [List.dropWhile_cons]
      have hpre := List.rdropWhile_prefix p (List.dropWhile p l)
      rw [hd, hdd] at hpre
      have hmem : (List.dropWhile p l) ≠ [] := by
        intro hnil
        rw [hnil] at hpre
        exact absurd (List.prefix_nil.mp hpre) (by simp)
      have hzero : 0 < (List.dropWhile p l).length := List.length_pos.mpr hmem
      have hnot := List.dropWhile_get_zero_not p l hzero
      have hhead : (List.dropWhile p l).get ⟨0, hzero⟩ = c := by
        obtain ⟨t2, ht2⟩ := hpre
        have hh2 : List.dropWhile p l = c :: (t ++ t2) := by rw [← ht2]; simp
        simp [hh2]
      rw [hhead] at hnot
      simp only [Bool.not_eq_true] at hnot
      rw [hnot]
      simp
  rw [hdw]
  rw [← hd]
  exact List.rdropWhile_idempotent p _

theorem dedupAcc_mem (x : String) :
    ∀ (l seen : List String), x ∈ dedupAcc seen l ↔ x ∈ l ∧ x ∉ seen := by
  intro l
  induction l with
  | nil => intro seen; simp [dedupAcc]
  | cons y ys ih =>
    intro seen
    have hstep : dedupAcc seen (y :: ys) =
        if seen.contains y then dedupAcc seen ys else y :: dedupAcc (y :: seen) ys := rfl
    by_cases hy : seen.contains y = true
    · rw [hstep, if_pos hy]
      have hymem : y ∈ seen := by simpa using hy
      rw [ih seen]
      constructor
      · rintro ⟨h1, h2⟩
        exact ⟨List.mem_cons_of_mem y h1, h2⟩
      · rintro ⟨h1, h2⟩
        rcases List.mem_cons.mp h1 with rfl | h1
        · exact absurd hymem h2
        · exact ⟨h1, h2⟩
    · rw [hstep, if_neg hy]
      have hynmem : y ∉ seen := by simpa using hy
      constructor
      · intro hmem
        rcases List.mem_cons.mp hmem with rfl | hmem
        · exact ⟨List.mem_cons_self _ _, hynmem⟩
        · obtain ⟨h1, h2⟩ := (ih (y :: seen)).mp hmem
          exact ⟨List.mem_cons_of_mem y h1, fun hs => h2 (List.mem_cons_of_mem y hs)⟩
      · rintro ⟨h1, h2⟩
        by_cases hxy : x = y
        · rw [hxy]
          exact List.mem_cons_self _ _
        · rcases List.mem_cons.mp h1 with h1' | h1'
          · exact absurd h1' hxy
          · refine List.mem_cons_of_mem y ((ih (y :: seen)).mpr ⟨h1', ?_⟩)
            intro hs
            rcases List.mem_cons.mp hs with h | h
            · exact hxy h
            · exact h2 h

theorem dedupAcc_nodup : ∀ (l seen : List String), (dedupAcc seen l).Nodup := by
  intro l
  induction l with
  | nil => intro seen; simp [dedupAcc]
  | cons y ys ih =>
    intro seen
    have hstep : dedupAcc seen (y :: ys) =
        if seen.contains y then dedupAcc seen ys else y :: dedupAcc (y :: seen) ys := rfl
    by_cases hy : seen.contains y = true
    · rw [hstep, if_pos hy]
      exact ih seen
    · rw [hstep, if_neg hy]
      refine List.nodup_cons.mpr ⟨fun hmem => ?_, ih (y :: seen)⟩
      exact ((dedupAcc_mem y ys (y :: seen)).mp hmem).2 (List.mem_cons_self y seen)

theorem pyListSet_mem (x : String) (l : List String) : x ∈ pyListSet l ↔ x ∈ l := by
  unfold pyListSet
  rw [dedupAcc_mem]
  simp

theorem pyListSet_nodup (l : List String) : (pyListSet l).Nodup := dedupAcc_nodup l []

theorem filterMap_filter_eq {α β : Type} (f : α → Option β) (g : α → Bool)
    (l : List α) (h : ∀ x ∈ l, g x = false → f x = none) :
    (l.filter g).filterMap f = l.filterMap f := by
  induction l with
  | nil => rfl
  | cons y ys ih =>
    have ih' := ih (fun x hx => h x (List.mem_cons_of_mem y hx))
    by_cases hg : g y = true
    · rw [List.filter_cons_of_pos hg]
      rw [List.filterMap_cons, List.filterMap_cons]
      cases f y <;> simp [ih']
    · rw [List.filter_cons_of_neg (by simpa using hg)]
      rw [List.filterMap_cons, h y (List.mem_cons_self y ys) (by simpa using hg), ih']

theorem pyIn_eq_false_of_ne (s : Char) (sep' l : List Char) (h : ∀ c ∈ l, c ≠ s) :
    pyIn (s :: sep') l = false := by
  have h0 := pyIn_append_left s sep' l [] h
  rw [List.append_nil] at h0
  rw [h0]
  exact pyIn_nil_of_ne_nil _ (by simp)

/-- Common tail of the response-parser computation: line 29 applied to a
newline-padded text reduces to stripping the text. -/
theorem finalStrip_tail (J : List Char) :
    stripChars pyWs (stripChars (fun c => c == btk)
      (List.dropWhile inJsonSet ('\n' :: (J ++ ['\n'])))) = stripChars pyWs J := by
  rw [List.dropWhile_cons]
  simp only [show inJsonSet '\n' = false from by decide, Bool.false_eq_true, if_false]
  rw [stripChars_cons_concat (fun c => c == btk) '\n' '\n' J rfl rfl]
  rw [stripChars_cons_pos pyWs '\n' _ (by decide)]
  exact stripChars_concat_pos pyWs J '\n' (by decide)

/-- The response parser on a clean backtick-free text whose trimmed form
starts with an opening brace reduces to plain whitespace stripping
followed by deserialization. -/
theorem stripJsonFences_clean (J : List Char) (hb : ∀ c ∈ J, c ≠ btk)
    (hh : (stripChars pyWs J).head? = some lbrace) :
    stripJsonFences J = stripChars pyWs J := by
  have hbt : ∀ c ∈ stripChars pyWs J, c ≠ btk := fun c hc => hb c (mem_stripChars _ _ _ hc)
  have h1 : pyIn jsonTagL (stripChars pyWs J) = false :=
    pyIn_eq_false_of_ne btk [btk, btk, 'j', 's', 'o', 'n'] _ hbt
  have h2 : pyIn fenceL (stripChars pyWs J) = false :=
    pyIn_eq_false_of_ne btk [btk, btk] _ hbt
  obtain ⟨t0, ht0⟩ : ∃ t0, stripChars pyWs J = lbrace :: t0 := by
    cases hJt : stripChars pyWs J with
    | nil => rw [hJt] at hh; simp at hh
    | cons c t =>
      rw [hJt] at hh
      simp only [List.head?_cons, Option.some.injEq] at hh
      exact ⟨t, by rw [hh]⟩
  have hbt0 : ∀ c ∈ lbrace :: t0, (c == btk) = false := by
    intro c hc
    have hcm : c ∈ stripChars pyWs J := by rw [ht0]; exact hc
    exact beq_eq_false_iff_ne.mpr (hbt c hcm)
  unfold stripJsonFences
  simp only [h1, h2, Bool.false_eq_true, if_false]
  rw [ht0, List.dropWhile_cons]
  simp only [show inJsonSet lbrace = false from by decide, Bool.false_eq_true, if_false]
  rw [stripChars_eq_self_of_all (fun c => c == btk) (lbrace :: t0) hbt0]
  rw [← ht0, stripChars_idem]

/-- The response parser undoes a ```json fence around a backtick-free
text, reducing to whitespace stripping of the interior. -/
theorem stripJsonFences_wrapJson (J : List Char) (hb : ∀ c ∈ J, c ≠ btk) :
    stripJsonFences (jsonTagL ++ ('\n' :: (J ++ '\n' :: fenceL))) = stripChars pyWs J := by
  have hbA : ∀ c ∈ '\n' :: (J ++ ['\n']), c ≠ btk := by
    intro c hc
    rcases List.mem_cons.mp hc with rfl | hc
    · decide
    · rcases List.mem_append.mp hc with hc | hc
      · exact hb c hc
      · simp at hc; rw [hc]; decide
  have e1 : stripChars pyWs (jsonTagL ++ ('\n' :: (J ++ '\n' :: fenceL))) =
      jsonTagL ++ ('\n' :: (J ++ '\n' :: fenceL)) := by
    have hW : jsonTagL ++ ('\n' :: (J ++ '\n' :: fenceL)) =
        btk :: (([btk, btk, 'j', 's', 'o', 'n', '\n'] ++ (J ++ ['\n', btk, btk])) ++ [btk]) := by
      simp [jsonTagL, fenceL, List.append_assoc]
    rw [hW]
    exact stripChars_cons_concat pyWs btk btk _ (by decide) (by decide)
  have e2 : pyIn jsonTagL (jsonTagL ++ ('\n' :: (J ++ '\n' :: fenceL))) = true :=
    pyIn_self_append btk [btk, btk, 'j', 's', 'o', 'n'] _
  have e4 : pyIn jsonTagL ('\n' :: (J ++ '\n' :: fenceL)) = false := by
    rw [pyIn_cons_neg jsonTagL '\n' (J ++ '\n' :: fenceL) rfl]
    have := pyIn_append_left btk [btk, btk, 'j', 's', 'o', 'n'] J ('\n' :: fenceL) hb
    rw [show pyIn jsonTagL (J ++ '\n' :: fenceL) =
      pyIn (btk :: [btk, btk, 'j', 's', 'o', 'n']) (J ++ '\n' :: fenceL) from rfl, this]
    decide
  have e3 : pySplit jsonTagL (jsonTagL ++ ('\n' :: (J ++ '\n' :: fenceL))) =
      [[], '\n' :: (J ++ '\n' :: fenceL)] := by
    have hs := pySplit_sep_append btk [btk, btk, 'j', 's', 'o', 'n']
      ('\n' :: (J ++ '\n' :: fenceL))
    have hno := pySplit_no_occur jsonTagL ('\n' :: (J ++ '\n' :: fenceL)) e4
    rw [show pySplit jsonTagL (jsonTagL ++ ('\n' :: (J ++ '\n' :: fenceL))) =
      pySplit (btk :: [btk, btk, 'j', 's', 'o', 'n'])
        ((btk :: [btk, btk, 'j', 's', 'o', 'n']) ++ ('\n' :: (J ++ '\n' :: fenceL))) from rfl]
    rw [hs]
    rw [show pySplit (btk :: [btk, btk, 'j', 's', 'o', 'n']) ('\n' :: (J ++ '\n' :: fenceL)) =
      pySplit jsonTagL ('\n' :: (J ++ '\n' :: fenceL)) from rfl, hno]
  have e5 : pyIn fenceL ('\n' :: (J ++ '\n' :: fenceL)) = true := by
    show (List.isPrefixOf fenceL ('\n' :: (J ++ '\n' :: fenceL)) ||
      pyIn fenceL (J ++ '\n' :: fenceL)) = true
    rw [pyIn_append_right fenceL J ('\n' :: fenceL) (by decide)]
    simp
  have e6 : pySplit fenceL ('\n' :: (J ++ '\n' :: fenceL)) =
      [('\n' :: (J ++ ['\n'])), []] := by
    have hrest : '\n' :: (J ++ '\n' :: fenceL) = ('\n' :: (J ++ ['\n'])) ++ fenceL := by
      simp [List.append_assoc]
    obtain ⟨h, t, hsb, heq⟩ :=
      pySplit_append_left btk [btk, btk] ('\n' :: (J ++ ['\n'])) fenceL hbA
    have hval : pySplit [btk, btk, btk] fenceL = [[], []] := by decide
    have hcomb := hval.symm.trans hsb
    injection hcomb with hh1 hh2
    subst hh1
    subst hh2
    rw [List.append_nil] at heq
    rw [hrest]
    exact heq
  unfold stripJsonFences
  simp only [e1, e2, if_true, e3, List.getD_cons_succ, List.getD_cons_zero, e5, e6,
    List.headD_cons]
  exact finalStrip_tail J

/-- The response parser undoes a bare ``` fence around a backtick-free
text, reducing to whitespace stripping of the interior. -/
theorem stripJsonFences_wrapFence (J : List Char) (hb : ∀ c ∈ J, c ≠ btk) :
    stripJsonFences (fenceL ++ ('\n' :: (J ++ '\n' :: fenceL))) = stripChars pyWs J := by
  have hbA : ∀ c ∈ '\n' :: (J ++ ['\n']), c ≠ btk := by
    intro c hc
    rcases List.mem_cons.mp hc with rfl | hc
    · decide
    · rcases List.mem_append.mp hc with hc | hc
      · exact hb c hc
      · simp at hc; rw [hc]; decide
  have e1 : stripChars pyWs (fenceL ++ ('\n' :: (J ++ '\n' :: fenceL))) =
      fenceL ++ ('\n' :: (J ++ '\n' :: fenceL)) := by
    have hW : fenceL ++ ('\n' :: (J ++ '\n' :: fenceL)) =
        btk :: (([btk, btk, '\n'] ++ (J ++ ['\n', btk, btk])) ++ [btk]) := by
      simp [fenceL, List.append_assoc]
    rw [hW]
    exact stripChars_cons_concat pyWs btk btk _ (by decide) (by decide)
  have e2 : pyIn jsonTagL (fenceL ++ ('\n' :: (J ++ '\n' :: fenceL))) = false := by
    show pyIn jsonTagL (btk :: btk :: btk :: '\n' :: (J ++ '\n' :: fenceL)) = false
    rw [pyIn_cons_neg jsonTagL btk (btk :: btk :: '\n' :: (J ++ '\n' :: fenceL)) rfl]
    rw [pyIn_cons_neg jsonTagL btk (btk :: '\n' :: (J ++ '\n' :: fenceL)) rfl]
    rw [pyIn_cons_neg jsonTagL btk ('\n' :: (J ++ '\n' :: fenceL)) rfl]
    rw [pyIn_cons_neg jsonTagL '\n' (J ++ '\n' :: fenceL) rfl]
    have := pyIn_append_left btk [btk, btk, 'j', 's', 'o', 'n'] J ('\n' :: fenceL) hb
    rw [show pyIn jsonTagL (J ++ '\n' :: fenceL) =
      pyIn (btk :: [btk, btk, 'j', 's', 'o', 'n']) (J ++ '\n' :: fenceL) from rfl, this]
    decide
  have e3 : pyIn fenceL (fenceL ++ ('\n' :: (J ++ '\n' :: fenceL))) = true :=
    pyIn_self_append btk [btk, btk] _
  have e6 : pySplit fenceL ('\n' :: (J ++ '\n' :: fenceL)) =
      [('\n' :: (J ++ ['\n'])), []] := by
    have hrest : '\n' :: (J ++ '\n' :: fenceL) = ('\n' :: (J ++ ['\n'])) ++ fenceL := by
      simp [List.append_assoc]
    obtain ⟨h, t, hsb, heq⟩ :=
      pySplit_append_left btk [btk, btk] ('\n' :: (J ++ ['\n'])) fenceL hbA
    have hval : pySplit [btk, btk, btk] fenceL = [[], []] := by decide
    have hcomb := hval.symm.trans hsb
    injection hcomb with hh1 hh2
    subst hh1
    subst hh2
    rw [List.append_nil] at heq
    rw [hrest]
    exact heq
  have e4 : pySplit fenceL (fenceL ++ ('\n' :: (J ++ '\n' :: fenceL))) =
      [[], ('\n' :: (J ++ ['\n'])), []] := by
    have hs := pySplit_sep_append btk [btk, btk] ('\n' :: (J ++ '\n' :: fenceL))
    rw [show pySplit fenceL (fenceL ++ ('\n' :: (J ++ '\n' :: fenceL))) =
      pySplit (btk :: [btk, btk])
        ((btk :: [btk, btk]) ++ ('\n' :: (J ++ '\n' :: fenceL))) from rfl]
    rw [hs]
    rw [show pySplit (btk :: [btk, btk]) ('\n' :: (J ++ '\n' :: fenceL)) =
      pySplit fenceL ('\n' :: (J ++ '\n' :: fenceL)) from rfl, e6]
  unfold stripJsonFences
  simp only [e1, e2, Bool.false_eq_true, if_false, e3, if_true, e4,
    List.getD_cons_succ, List.getD_cons_zero, List.length_cons, List.length_nil]
  norm_num
  exact finalStrip_tail J

theorem toList_wrapJson (s : String) :
    (wrapJson s).toList = jsonTagL ++ ('\n' :: (s.toList ++ '\n' :: fenceL)) := by
  show ("```json\n" ++ s ++ "\n```").data = _
  rw [String.data_append, String.data_append]
  rw [show "```json\n".data = jsonTagL ++ ['\n'] from rfl]
  rw [show "\n```".data = '\n' :: fenceL from rfl]
  simp [List.append_assoc]

theorem toList_wrapFence (s : String) :
    (wrapFence s).toList = fenceL ++ ('\n' :: (s.toList ++ '\n' :: fenceL)) := by
  show ("```\n" ++ s ++ "\n```").data = _
  rw [String.data_append, String.data_append]
  rw [show "```\n".data = fenceL ++ ['\n'] from rfl]
  rw [show "\n```".data = '\n' :: fenceL from rfl]
  simp [List.append_assoc]

/-! # Lemmas about the citation resolver -/

theorem resolveParts_some_iff (idx : Nat) (evl : List Evidence)
    (parts : List (List Char)) (u : String) :
    resolveParts idx evl parts = some u ↔
      ∃ p1 p2 fnum enum, parts = [p1, p2] ∧ pyIntL p1 = some fnum ∧ pyIntL p2 = some enum ∧
        fnum = (idx : Int) ∧ 1 ≤ enum ∧ enum ≤ (evl.length : Int) ∧
        ∃ ev u0, evl.get? (enum - 1).toNat = some ev ∧ ev.url = some u0 ∧ u0 ≠ "" ∧ u = u0 := by
  match parts with
  | [] => simp [resolveParts]
  | [p1] => simp [resolveParts]
  | p1 :: p2 :: p3 :: rest => simp [resolveParts]
  | [p1, p2] =>
    simp only [resolveParts]
    cases hint1 : pyIntL p1 with
    | none => simp [hint1]
    | some fnum =>
      cases hint2 : pyIntL p2 with
      | none => simp [hint1, hint2]
      | some enum =>
        dsimp only
        constructor
        · intro h
          by_cases hcond :
              (fnum == (idx : Int) && decide (1 ≤ enum) &&
                decide (enum ≤ (evl.length : Int))) = true
          · rw [if_pos hcond] at h
            obtain ⟨hc1, hc2, hc3⟩ :
                fnum = (idx : Int) ∧ 1 ≤ enum ∧ enum ≤ (evl.length : Int) := by
              simp only [Bool.and_eq_true, beq_iff_eq, decide_eq_true_eq] at hcond
              exact ⟨hcond.1.1, hcond.1.2, hcond.2⟩
            cases hget : evl.get? (enum - 1).toNat with
            | none => rw [hget] at h; exact absurd h (by simp)
            | some ev =>
              rw [hget] at h
              dsimp only at h
              cases hurl : ev.url with
              | none => rw [hurl] at h; exact absurd h (by simp)
              | some u0 =>
                rw [hurl] at h
                dsimp only at h
                by_cases hu0 : (u0 == "") = true
                · rw [if_pos hu0] at h; exact absurd h (by simp)
                · rw [if_neg hu0] at h
                  injection h with h
                  exact ⟨p1, p2, fnum, enum, rfl, hint1, hint2, hc1, hc2, hc3, ev, u0,
                    hget, hurl, by simpa using hu0, h.symm⟩
          · rw [if_neg hcond] at h
            exact absurd h (by simp)
        · rintro ⟨q1, q2, f', e', heq, h1, h2, h3, h4, h5, ev', u1, hg, hu, hne, hueq⟩
          injection heq with e1 e2
          injection e2 with e2 _
          subst e1; subst e2
          rw [hint1] at h1; injection h1 with h1
          rw [hint2] at h2; injection h2 with h2
          subst h1; subst h2
          rw [if_pos (by simp [h3, h4, h5])]
          rw [hg]
          dsimp only
          rw [hu]
          dsimp only
          rw [if_neg (by simpa using hne)]
          rw [hueq]

theorem resolveTokenStr_some_iff (idx : Nat) (evl : List Evidence) (s u : String) :
    resolveTokenStr idx evl s = some u ↔ citesUrl idx evl s u :=
  resolveParts_some_iff idx evl _ u

theorem resolve_none_of_malformed (idx : Nat) (evl : List Evidence) (t : String)
    (h : tokenMalformed idx evl t = true) : resolveTokenStr idx evl t = none := by
  unfold tokenMalformed at h
  unfold resolveTokenStr
  match hp : pySplit ['.'] (stripChars pyWs (pyReplaceAll evidPat t.toList)) with
  | [] => rfl
  | [p1] => rfl
  | q1 :: q2 :: q3 :: r => rfl
  | [p1, p2] =>
    rw [hp] at h
    unfold resolveParts
    dsimp only at h ⊢
    cases hint1 : pyIntL p1 with
    | none => rfl
    | some fnum =>
      cases hint2 : pyIntL p2 with
      | none => rfl
      | some enum =>
        rw [hint1, hint2] at h
        dsimp only at h ⊢
        rw [if_neg]
        intro hcc
        rw [hcc] at h
        simp at h

theorem processFact_ok_of_shape (idx : Nat) (evl : List Evidence) (v : JsonVal)
    (h : factShapeOk v = true) : ∃ r, processFact idx evl v = Except.ok r := by
  cases v with
  | obj fields =>
    unfold factShapeOk at h
    unfold processFact
    dsimp only at h ⊢
    cases hge : dictGet fields "cited_evidence" with
    | none => exact ⟨_, rfl⟩
    | some w =>
      rw [hge] at h
      dsimp only at h
      simp only [Option.getD_some]
      cases hit : pyIterate w with
      | none =>
        unfold nonIterable at h
        rw [hit] at h
        simp at h
      | some items => exact ⟨_, rfl⟩
  | null => simp [factShapeOk] at h
  | bool b => simp [factShapeOk] at h
  | num lx => simp [factShapeOk] at h
  | str s => simp [factShapeOk] at h
  | arr l => simp [factShapeOk] at h

theorem processFact_error_of_shape (idx : Nat) (evl : List Evidence) (v : JsonVal)
    (h : factShapeOk v = false) : ∃ e, processFact idx evl v = Except.error e := by
  cases v with
  | obj fields =>
    unfold factShapeOk at h
    unfold processFact
    dsimp only at h ⊢
    cases hge : dictGet fields "cited_evidence" with
    | none => rw [hge] at h; simp at h
    | some w =>
      rw [hge] at h
      dsimp only at h
      simp only [Option.getD_some]
      cases hit : pyIterate w with
      | none => exact ⟨_, rfl⟩
      | some items =>
        unfold nonIterable at h
        rw [hit] at h
        simp at h
  | null => exact ⟨_, rfl⟩
  | bool b => exact ⟨_, rfl⟩
  | num lx => exact ⟨_, rfl⟩
  | str s => exact ⟨_, rfl⟩
  | arr l => exact ⟨_, rfl⟩

theorem processFact_ok_inv (idx : Nat) (evl : List Evidence) (v : JsonVal) (r : FactResult)
    (h : processFact idx evl v = Except.ok r) :
    ∃ fields, v = JsonVal.obj fields ∧
      r.verdict = (dictGet fields "verdict").getD (JsonVal.str "Uncertain") := by
  cases v with
  | obj fields =>
    refine ⟨fields, rfl, ?_⟩
    unfold processFact at h
    dsimp only at h
    cases hit : pyIterate ((dictGet fields "cited_evidence").getD (JsonVal.arr [])) with
    | none => rw [hit] at h; exact absurd h (by simp)
    | some items =>
      rw [hit] at h
      injection h with h
      rw [← h]
  | null => exact absurd h (by simp [processFact])
  | bool b => exact absurd h (by simp [processFact])
  | num lx => exact absurd h (by simp [processFact])
  | str s => exact absurd h (by simp [processFact])
  | arr l => exact absurd h (by simp [processFact])

theorem processFact_ok_of_arr (idx : Nat) (evl : List Evidence)
    (fields : List (String × JsonVal)) (tokens : List JsonVal)
    (h : dictGet fields "cited_evidence" = some (JsonVal.arr tokens)) :
    processFact idx evl (JsonVal.obj fields) =
      Except.ok ⟨(dictGet fields "verdict").getD (JsonVal.str "Uncertain"),
        (dictGet fields "reasoning").getD (JsonVal.str ""),
        supporting_urls_of idx evl tokens⟩ := by
  unfold processFact
  dsimp only
  rw [h]
  rfl

theorem any_eq_isSome_dictGet (fields : List (String × JsonVal)) (k : String) :
    fields.any (fun p => p.1 == k) = (dictGet fields k).isSome := by
  induction fields with
  | nil => rfl
  | cons p rest ih =>
    by_cases hpk : (p.1 == k) = true
    · simp [dictGet, List.find?_cons, hpk]
    · have hpk' : (p.1 == k) = false := by simpa using hpk
      simp [dictGet, List.find?_cons, hpk', ih]

theorem pyContainsKey_obj_none (fields : List (String × JsonVal)) (k : String)
    (h : dictGet fields k = none) :
    pyContainsKey (JsonVal.obj fields) k = Except.ok false := by
  unfold pyContainsKey
  dsimp only
  rw [any_eq_isSome_dictGet, h]
  rfl

theorem pyContainsKey_obj_some (fields : List (String × JsonVal)) (k : String) (v : JsonVal)
    (h : dictGet fields k = some v) :
    pyContainsKey (JsonVal.obj fields) k = Except.ok true := by
  unfold pyContainsKey
  dsimp only
  rw [any_eq_isSome_dictGet, h]
  rfl

theorem pyGetItem_obj_some (fields : List (String × JsonVal)) (k : String) (v : JsonVal)
    (h : dictGet fields k = some v) :
    pyGetItem (JsonVal.obj fields) k = Except.ok v := by
  unfold pyGetItem
  dsimp only
  rw [h]

theorem processClaims_ok_keys (llm : JsonVal) :
    ∀ (facts : List (String × List Evidence)) (j : Nat)
      (results : List (String × FactResult)),
      processClaims llm j facts = Except.ok results →
      results.map Prod.fst = facts.map Prod.fst := by
  intro facts
  induction facts with
  | nil =>
    intro j results h
    injection h with h
    rw [← h]
    rfl
  | cons p rest ih =>
    intro j results h
    obtain ⟨fact, evl⟩ := p
    unfold processClaims at h
    cases hck : pyContainsKey llm ("fact_" ++ toString j) with
    | error e => rw [hck] at h; exact absurd h (by simp)
    | ok b =>
      rw [hck] at h
      cases b with
      | false =>
        dsimp only at h
        cases hrec : processClaims llm (j + 1) rest with
        | error e => rw [hrec] at h; exact absurd h (by simp)
        | ok r =>
          rw [hrec] at h
          injection h with h
          rw [← h]
          simp [ih (j + 1) r hrec]
      | true =>
        dsimp only at h
        cases hgi : pyGetItem llm ("fact_" ++ toString j) with
        | error e => rw [hgi] at h; exact absurd h (by simp)
        | ok v =>
          rw [hgi] at h
          dsimp only at h
          cases hpf : processFact j evl v with
          | error e => rw [hpf] at h; exact absurd h (by simp)
          | ok res =>
            rw [hpf] at h
            dsimp only at h
            cases hrec : processClaims llm (j + 1) rest with
            | error e => rw [hrec] at h; exact absurd h (by simp)
            | ok r =>
              rw [hrec] at h
              injection h with h
              rw [← h]
              simp [ih (j + 1) r hrec]

theorem processClaims_ok_pointwise (llm : JsonVal) :
    ∀ (facts : List (String × List Evidence)) (j : Nat)
      (results : List (String × FactResult)),
      processClaims llm j facts = Except.ok results →
      results.length = facts.length ∧
      ∀ (k : Nat) (fact : String) (evl : List Evidence),
        facts.get? k = some (fact, evl) →
        (pyContainsKey llm ("fact_" ++ toString (j + k)) = Except.ok false ∧
          results.get? k = some (fact, errorRecord "No output from LLM")) ∨
        (∃ v r, pyContainsKey llm ("fact_" ++ toString (j + k)) = Except.ok true ∧
          pyGetItem llm ("fact_" ++ toString (j + k)) = Except.ok v ∧
          processFact (j + k) evl v = Except.ok r ∧
          results.get? k = some (fact, r)) := by
  intro facts
  induction facts with
  | nil =>
    intro j results h
    injection h with h
    rw [← h]
    exact ⟨rfl, fun k fact evl hget => absurd hget (by simp)⟩
  | cons p rest ih =>
    intro j results h
    obtain ⟨fact0, evl0⟩ := p
    unfold processClaims at h
    cases hck : pyContainsKey llm ("fact_" ++ toString j) with
    | error e => rw [hck] at h; exact absurd h (by simp)
    | ok b =>
      rw [hck] at h
      cases b with
      | false =>
        dsimp only at h
        cases hrec : processClaims llm (j + 1) rest with
        | error e => rw [hrec] at h; exact absurd h (by simp)
        | ok r =>
          rw [hrec] at h
          injection h with h
          obtain ⟨hlen, hpt⟩ := ih (j + 1) r hrec
          rw [← h]
          refine ⟨by simp [hlen], ?_⟩
          intro k fact evl hget
          cases k with
          | zero =>
            simp only [List.get?_cons_zero, Option.some.injEq, Prod.mk.injEq] at hget
            obtain ⟨rfl, rfl⟩ := hget
            left
            rw [Nat.add_zero]
            exact ⟨hck, rfl⟩
          | succ k' =>
            simp only [List.get?_cons_succ] at hget ⊢
            have hkey : "fact_" ++ toString (j + (k' + 1)) =
                "fact_" ++ toString (j + 1 + k') :=
              congrArg (fun n => "fact_" ++ toString n) (by omega)
            rw [show j + (k' + 1) = j + 1 + k' from by omega]
            exact hpt k' fact evl hget
      | true =>
        dsimp only at h
        cases hgi : pyGetItem llm ("fact_" ++ toString j) with
        | error e => rw [hgi] at h; exact absurd h (by simp)
        | ok v =>
          rw [hgi] at h
          dsimp only at h
          cases hpf : processFact j evl0 v with
          | error e => rw [hpf] at h; exact absurd h (by simp)
          | ok res =>
            rw [hpf] at h
            dsimp only at h
            cases hrec : processClaims llm (j + 1) rest with
            | error e => rw [hrec] at h; exact absurd h (by simp)
            | ok r =>
              rw [hrec] at h
              injection h with h
              obtain ⟨hlen, hpt⟩ := ih (j + 1) r hrec
              rw [← h]
              refine ⟨by simp [hlen], ?_⟩
              intro k fact evl hget
              cases k with
              | zero =>
                simp only [List.get?_cons_zero, Option.some.injEq, Prod.mk.injEq] at hget
                obtain ⟨rfl, rfl⟩ := hget
                right
                rw [Nat.add_zero]
                exact ⟨v, res, hck, hgi, hpf, rfl⟩
              | succ k' =>
                simp only [List.get?_cons_succ] at hget ⊢
                rw [show j + (k' + 1) = j + 1 + k' from by omega]
                exact hpt k' fact evl hget

theorem processClaims_obj_ok (fields : List (String × JsonVal)) :
    ∀ (facts : List (String × List Evidence)) (j : Nat),
      (∀ (k : Nat) (fact : String) (evl : List Evidence) (v : JsonVal),
        facts.get? k = some (fact, evl) →
        dictGet fields ("fact_" ++ toString (j + k)) = some v → factShapeOk v = true) →
      ∃ results, processClaims (JsonVal.obj fields) j facts = Except.ok results := by
  intro facts
  induction facts with
  | nil => intro j _; exact ⟨[], rfl⟩
  | cons p rest ih =>
    intro j hshape
    obtain ⟨fact0, evl0⟩ := p
    have hshape' : ∀ (k : Nat) (fact : String) (evl : List Evidence) (v : JsonVal),
        rest.get? k = some (fact, evl) →
        dictGet fields ("fact_" ++ toString (j + 1 + k)) = some v → factShapeOk v = true := by
      intro k fact evl v hget hd
      refine hshape (k + 1) fact evl v (by simpa using hget) ?_
      rw [show j + (k + 1) = j + 1 + k from by omega]
      exact hd
    obtain ⟨r, hr⟩ := ih (j + 1) hshape'
    cases hd : dictGet fields ("fact_" ++ toString j) with
    | none =>
      refine ⟨(fact0, errorRecord "No output from LLM") :: r, ?_⟩
      unfold processClaims
      rw [pyContainsKey_obj_none fields _ hd]
      dsimp only
      rw [hr]
    | some v =>
      have hsh : factShapeOk v = true := by
        refine hshape 0 fact0 evl0 v (by simp) ?_
        rw [Nat.add_zero]
        exact hd
      obtain ⟨res, hres⟩ := processFact_ok_of_shape j evl0 v hsh
      refine ⟨(fact0, res) :: r, ?_⟩
      unfold processClaims
      rw [pyContainsKey_obj_some fields _ v hd]
      dsimp only
      rw [pyGetItem_obj_some fields _ v hd]
      dsimp only
      rw [hres]
      dsimp only
      rw [hr]

theorem processClaims_error_of_badShape (fields : List (String × JsonVal)) :
    ∀ (facts : List (String × List Evidence)) (j k : Nat) (fact : String)
      (evl : List Evidence) (v : JsonVal),
      facts.get? k = some (fact, evl) →
      dictGet fields ("fact_" ++ toString (j + k)) = some v →
      factShapeOk v = false →
      ∃ e, processClaims (JsonVal.obj fields) j facts = Except.error e := by
  intro facts
  induction facts with
  | nil => intro j k fact evl v hget _ _; simp at hget
  | cons p rest ih =>
    intro j k fact evl v hget hdict hbad
    obtain ⟨f0, e0⟩ := p
    cases k with
    | zero =>
      simp only [List.get?_cons_zero, Option.some.injEq, Prod.mk.injEq] at hget
      obtain ⟨rfl, rfl⟩ := hget
      rw [Nat.add_zero] at hdict
      obtain ⟨e, hpf⟩ := processFact_error_of_shape j e0 v hbad
      refine ⟨e, ?_⟩
      unfold processClaims
      rw [pyContainsKey_obj_some fields _ v hdict]
      dsimp only
      rw [pyGetItem_obj_some fields _ v hdict]
      dsimp only
      rw [hpf]
    | succ k' =>
      simp only [List.get?_cons_succ] at hget
      rw [show j + (k' + 1) = j + 1 + k' from by omega] at hdict
      obtain ⟨e, he⟩ := ih (j + 1) k' fact evl v hget hdict hbad
      cases hd : dictGet fields ("fact_" ++ toString j) with
      | none =>
        refine ⟨e, ?_⟩
        unfold processClaims
        rw [pyContainsKey_obj_none fields _ hd]
        dsimp only
        rw [he]
      | some v2 =>
        cases hpf : processFact j e0 v2 with
        | error e2 =>
          refine ⟨e2, ?_⟩
          unfold processClaims
          rw [pyContainsKey_obj_some fields _ v2 hd]
          dsimp only
          rw [pyGetItem_obj_some fields _ v2 hd]
          dsimp only
          rw [hpf]
        | ok r2 =>
          refine ⟨e, ?_⟩
          unfold processClaims
          rw [pyContainsKey_obj_some fields _ v2 hd]
          dsimp only
          rw [pyGetItem_obj_some fields _ v2 hd]
          dsimp only
          rw [hpf]
          dsimp only
          rw [he]

theorem pyGetItem_ok_inv (llm : JsonVal) (k : String) (v : JsonVal)
    (h : pyGetItem llm k = Except.ok v) :
    ∃ fields, llm = JsonVal.obj fields ∧ dictGet fields k = some v := by
  cases llm with
  | obj fields =>
    refine ⟨fields, rfl, ?_⟩
    unfold pyGetItem at h
    dsimp only at h
    cases hd : dictGet fields k with
    | none => rw [hd] at h; exact absurd h (by simp)
    | some w => rw [hd] at h; injection h with h; rw [h]
  | null => exact absurd h (by simp [pyGetItem])
  | bool b => exact absurd h (by simp [pyGetItem])
  | num lx => exact absurd h (by simp [pyGetItem])
  | str s => exact absurd h (by simp [pyGetItem])
  | arr l => exact absurd h (by simp [pyGetItem])

/-! # Claim theorems -/

/-- C1: for every claim position `idx` with evidence list `evl` and every
list of citation-token strings, the final `supporting_urls` is exactly the
deduplicated set of URLs at the cited positions: a URL is in the result
iff some token normalizes and splits into exactly the two integers
`(idx, enum)` with `1 ≤ enum ≤ L` and the evidence entry at position
`enum` carries that non-empty URL; and the result is duplicate-free. -/
theorem c1_citation_resolution (idx : Nat) (evl : List Evidence) (toks : List String)
    (u : String) :
    ((u ∈ supporting_urls_of idx evl (toks.map JsonVal.str)) ↔
      ∃ t ∈ toks, citesUrl idx evl t u) ∧
    (supporting_urls_of idx evl (toks.map JsonVal.str)).Nodup := by
  constructor
  · unfold supporting_urls_of
    rw [pyListSet_mem, List.mem_filterMap]
    constructor
    · rintro ⟨x, hx, hres⟩
      obtain ⟨t, ht, rfl⟩ := List.mem_map.mp hx
      exact ⟨t, ht, (resolveTokenStr_some_iff idx evl t u).mp hres⟩
    · rintro ⟨t, ht, hcit⟩
      exact ⟨JsonVal.str t, List.mem_map_of_mem _ ht,
        (resolveTokenStr_some_iff idx evl t u).mpr hcit⟩
  · exact pyListSet_nodup _

/-- C2: whenever the response parser signals a parse failure, the batch
validator returns the total-batch fallback: every claim, in input order,
receives the record with verdict `Error`, reasoning
`"Failed to parse LLM response"` and no supporting URLs. -/
theorem c2_parse_failure_total_batch_fallback (facts : List (String × List Evidence))
    (msg : String) (h : extract_json_from_response msg = none) :
    validate_facts_batch facts msg =
      Except.ok (facts.map (fun p => (p.1, errorRecord "Failed to parse LLM response"))) ∧
    errorRecord "Failed to parse LLM response" =
      ⟨JsonVal.str "Error", JsonVal.str "Failed to parse LLM response", []⟩ := by
  constructor
  · unfold validate_facts_batch
    rw [h]
  · rfl

/-- C2 witness: the spec scenario — the generation stub answers
`"Sorry, I cannot answer."` and both claims of the batch receive the
fallback record. -/
theorem c2_parse_failure_total_batch_fallback_witness :
    validate_facts_batch exFacts2 "Sorry, I cannot answer." =
      Except.ok [("c1", errorRecord "Failed to parse LLM response"),
        ("c2", errorRecord "Failed to parse LLM response")] :=
  (c2_parse_failure_total_batch_fallback exFacts2 "Sorry, I cannot answer." rfl).1

/-- C3 counterexample: when the generation capability raises,
`validate_facts_batch` does not return a per-claim Error mapping — it
returns no mapping at all (the exception propagates), refuting the claim
at a one-claim batch. -/
theorem c3_counterexample :
    ¬ ∃ results, validate_facts_batch_gen exFacts1 (Except.error PyError.generationError) =
      Except.ok results := by
  rintro ⟨results, h⟩
  exact absurd h (by simp [validate_facts_batch_gen])

/-- C3 amended: if the generation capability raises, the exception
propagates out of `validate_facts_batch` unchanged; the caller in
`main.py` catches it and continues with no per-claim results for the
batch.  Only unparseable-but-returned output is recovered inside the
function as per-claim Error verdicts. -/
theorem c3_amended_generation_raise_propagates (facts : List (String × List Evidence))
    (e : PyError) :
    validate_facts_batch_gen facts (Except.error e) = Except.error e ∧
    main_validation_step facts (Except.error e) = none := ⟨rfl, rfl⟩

/-- C5: for a JSON object text the parser accepts clean, wrapping in a
```json fence or a bare ``` fence yields the same parsed object, provided
the text contains no backtick and its trimmed form opens with a brace. -/
theorem c5_parser_fence_invariance (J : String) (v : JsonVal)
    (hclean : extract_json_from_response J = some v)
    (hb : ∀ c ∈ J.toList, c ≠ btk)
    (hh : (stripChars pyWs J.toList).head? = some lbrace) :
    extract_json_from_response (wrapJson J) = some v ∧
    extract_json_from_response (wrapFence J) = some v := by
  unfold extract_json_from_response at hclean ⊢
  rw [stripJsonFences_clean J.toList hb hh] at hclean
  constructor
  · rw [toList_wrapJson, stripJsonFences_wrapJson J.toList hb]
    exact hclean
  · rw [toList_wrapFence, stripJsonFences_wrapFence J.toList hb]
    exact hclean

/-- C5 witness: the object text `exJson` parses identically clean, inside
a ```json fence and inside a bare fence. -/
theorem c5_parser_fence_invariance_witness :
    extract_json_from_response (wrapJson exJson) =
      some (JsonVal.obj [("a", JsonVal.num "1")]) ∧
    extract_json_from_response (wrapFence exJson) =
      some (JsonVal.obj [("a", JsonVal.num "1")]) :=
  c5_parser_fence_invariance exJson (JsonVal.obj [("a", JsonVal.num "1")]) rfl
    (by decide) rfl

/-- C5 counterexample: prose before the JSON, with no fences, is not
recovered — the parser accepts the clean text but fails on the same text
preceded by prose, refuting the prose clause of the claim. -/
theorem c5_prose_counterexample :
    extract_json_from_response exJson = some (JsonVal.obj [("a", JsonVal.num "1")]) ∧
    extract_json_from_response ("The answer is " ++ exJson) = none := ⟨rfl, rfl⟩

/-- C4: when parsing succeeds with a JSON object that lacks the key
`fact_i` for the claim at 1-based position `i`, and every present sibling
sub-value is of the shape the per-claim processing handles, then exactly
that claim receives the record
`verdict Error / reasoning "No output from LLM" / no URLs`, and every
claim whose key is present gets the output of its normal processing —
failure isolation at claim granularity. -/
theorem c4_missing_key_isolated_per_claim (facts : List (String × List Evidence))
    (msg : String) (fields : List (String × JsonVal)) (i : Nat) (fact_i : String)
    (evl_i : List Evidence)
    (hparse : extract_json_from_response msg = some (JsonVal.obj fields))
    (hi : facts.get? i = some (fact_i, evl_i))
    (habs : dictGet fields ("fact_" ++ toString (i + 1)) = none)
    (hshape : ∀ (k : Nat) (fact : String) (evl : List Evidence) (v : JsonVal),
      facts.get? k = some (fact, evl) →
      dictGet fields ("fact_" ++ toString (k + 1)) = some v → factShapeOk v = true) :
    ∃ results, validate_facts_batch facts msg = Except.ok results ∧
      results.length = facts.length ∧
      results.get? i = some (fact_i, errorRecord "No output from LLM") ∧
      ∀ (k : Nat) (fact : String) (evl : List Evidence) (v : JsonVal) (r : FactResult),
        facts.get? k = some (fact, evl) →
        dictGet fields ("fact_" ++ toString (k + 1)) = some v →
        processFact (k + 1) evl v = Except.ok r →
        results.get? k = some (fact, r) := by
  have hshape1 : ∀ (k : Nat) (fact : String) (evl : List Evidence) (v : JsonVal),
      facts.get? k = some (fact, evl) →
      dictGet fields ("fact_" ++ toString (1 + k)) = some v → factShapeOk v = true := by
    intro k fact evl v hg hd
    refine hshape k fact evl v hg ?_
    rw [show k + 1 = 1 + k from by omega]
    exact hd
  obtain ⟨results, hres⟩ := processClaims_obj_ok fields facts 1 hshape1
  have hvb : validate_facts_batch facts msg = Except.ok results := by
    unfold validate_facts_batch
    rw [hparse]
    exact hres
  obtain ⟨hlen, hpt⟩ := processClaims_ok_pointwise (JsonVal.obj fields) facts 1 results hres
  refine ⟨results, hvb, hlen, ?_, ?_⟩
  · rcases hpt i fact_i evl_i hi with ⟨hck, hri⟩ | ⟨v, r, hck, hgi, hpf, hri⟩
    · exact hri
    · rw [show 1 + i = i + 1 from by omega] at hck
      rw [pyContainsKey_obj_none fields _ habs] at hck
      exact absurd hck (by simp)
  · intro k fact evl v r hg hd hpf
    rcases hpt k fact evl hg with ⟨hck, hrk⟩ | ⟨v2, r2, hck2, hgi2, hpf2, hrk2⟩
    · rw [show 1 + k = k + 1 from by omega] at hck
      rw [pyContainsKey_obj_some fields _ v hd] at hck
      exact absurd hck (by simp)
    · rw [show 1 + k = k + 1 from by omega] at hgi2 hpf2
      rw [pyGetItem_obj_some fields _ v hd] at hgi2
      injection hgi2 with hv
      subst hv
      rw [hpf] at hpf2
      injection hpf2 with hr
      subst hr
      exact hrk2

/-- C4 witness: the spec scenario — a two-claim batch whose parsed
response omits `fact_2`: claim 2 receives the per-claim error record
while claim 1 resolves normally. -/
theorem c4_missing_key_isolated_per_claim_witness :
    ∃ results, validate_facts_batch exFacts2 exMsgSupported = Except.ok results ∧
      results.length = exFacts2.length ∧
      results.get? 1 = some ("c2", errorRecord "No output from LLM") ∧
      results.get? 0 = some ("c1", ⟨JsonVal.str "Supported", JsonVal.str "ok", []⟩) := by
  have hsh : ∀ (k : Nat) (fact : String) (evl : List Evidence) (v : JsonVal),
      exFacts2.get? k = some (fact, evl) →
      dictGet exFieldsSupported ("fact_" ++ toString (k + 1)) = some v →
      factShapeOk v = true := by
    intro k fact evl v hg hd
    match k with
    | 0 =>
      rw [show dictGet exFieldsSupported ("fact_" ++ toString (0 + 1)) =
        some (JsonVal.obj [("verdict", JsonVal.str "Supported"),
          ("reasoning", JsonVal.str "ok"), ("cited_evidence", JsonVal.arr [])]) from rfl] at hd
      injection hd with hd
      rw [← hd]
      rfl
    | 1 =>
      rw [show dictGet exFieldsSupported ("fact_" ++ toString (1 + 1)) = none from rfl] at hd
      exact absurd hd (by simp)
    | (k + 2) =>
      rw [show exFacts2.get? (k + 2) = none from rfl] at hg
      exact absurd hg (by simp)
  obtain ⟨results, h1, h2, h3, h4⟩ :=
    c4_missing_key_isolated_per_claim exFacts2 exMsgSupported exFieldsSupported 1 "c2" []
      rfl rfl rfl hsh
  refine ⟨results, h1, h2, h3, ?_⟩
  exact h4 0 "c1" []
    (JsonVal.obj [("verdict", JsonVal.str "Supported"),
      ("reasoning", JsonVal.str "ok"), ("cited_evidence", JsonVal.arr [])])
    ⟨JsonVal.str "Supported", JsonVal.str "ok", []⟩ rfl rfl rfl

/-- C6: whenever the batch validator returns a result mapping, its keys
are exactly the input claims in input order; the formatter labels the
claim at 0-based index `k` with 1-based position `k + 1`; and the result
of that same claim is computed by the per-claim processing at the same
position `k + 1` — position assignment is stable from formatting through
resolution. -/
theorem c6_position_stability (facts : List (String × List Evidence)) (msg : String)
    (results : List (String × FactResult))
    (h : validate_facts_batch facts msg = Except.ok results) :
    results.map Prod.fst = facts.map Prod.fst ∧
    (facts_text facts).length = facts.length ∧
    ∀ (k : Nat) (fact : String) (evl : List Evidence),
      facts.get? k = some (fact, evl) →
      (facts_text facts).get? k = some (fact_block (k + 1) fact evl) ∧
      ∀ (llm v : JsonVal) (r : FactResult),
        extract_json_from_response msg = some llm →
        pyGetItem llm ("fact_" ++ toString (k + 1)) = Except.ok v →
        processFact (k + 1) evl v = Except.ok r →
        results.get? k = some (fact, r) := by
  have hblock : ∀ (k : Nat) (fact : String) (evl : List Evidence),
      facts.get? k = some (fact, evl) →
      (facts_text facts).get? k = some (fact_block (k + 1) fact evl) := by
    intro k fact evl hg
    unfold facts_text
    rw [List.get?_map, List.get?_enumFrom, hg]
    dsimp only [Option.map_some']
    rw [show 1 + k = k + 1 from by omega]
  unfold validate_facts_batch at h
  cases hx : extract_json_from_response msg with
  | none =>
    rw [hx] at h
    injection h with h
    refine ⟨by rw [← h]; simp, by simp [facts_text], ?_⟩
    intro k fact evl hg
    refine ⟨hblock k fact evl hg, ?_⟩
    intro llm v r hllm _ _
    exact absurd hllm (by simp)
  | some llm0 =>
    rw [hx] at h
    obtain ⟨hlen, hpt⟩ := processClaims_ok_pointwise llm0 facts 1 results h
    refine ⟨processClaims_ok_keys llm0 facts 1 results h, by simp [facts_text], ?_⟩
    intro k fact evl hg
    refine ⟨hblock k fact evl hg, ?_⟩
    intro llm v r hllm hgi hpf
    injection hllm with hllm
    subst hllm
    rcases hpt k fact evl hg with ⟨hck, hrk⟩ | ⟨v2, r2, hck2, hgi2, hpf2, hrk2⟩
    · obtain ⟨fields, rfl, hd⟩ := pyGetItem_ok_inv llm0 ("fact_" ++ toString (k + 1)) v hgi
      rw [show 1 + k = k + 1 from by omega] at hck
      rw [pyContainsKey_obj_some fields _ v hd] at hck
      exact absurd hck (by simp)
    · rw [show 1 + k = k + 1 from by omega] at hgi2 hpf2
      rw [hgi] at hgi2
      injection hgi2 with hv
      subst hv
      rw [hpf] at hpf2
      injection hpf2 with hr
      subst hr
      exact hrk2

/-- C6 witness: on the two-claim batch with the `fact_2`-omitting
response, the output keys are the input claims in order, the first block
is labelled position 1, and the first claim's result is the position-1
processing output. -/
theorem c6_position_stability_witness :
    [("c1", FactResult.mk (JsonVal.str "Supported") (JsonVal.str "ok") []),
        ("c2", errorRecord "No output from LLM")].map Prod.fst = exFacts2.map Prod.fst ∧
    (facts_text exFacts2).get? 0 = some (fact_block 1 "c1" []) := by
  have h := c6_position_stability exFacts2 exMsgSupported
    [("c1", ⟨JsonVal.str "Supported", JsonVal.str "ok", []⟩),
      ("c2", errorRecord "No output from LLM")] rfl
  exact ⟨h.1, (h.2.2 0 "c1" [] rfl).1⟩

set_option maxRecDepth 400000 in
/-- C7: evaluating the prompt builder at a batch whose snippet spans two
lines shows the bug — line 98 interpolates the Python *list*
`facts_text`, so the prompt embeds `str(list)`: the snippet appears only
with its newline escaped (`\n` as two characters), and the verbatim
`Snippet:` line the claim requires is absent from the prompt. -/
theorem c7_prompt_interpolates_list_repr :
    prompt_text exFacts7 = promptBefore ++ pyStrOfList (facts_text exFacts7) ++ promptAfter ∧
    pyIn "s1\\ns2".toList (pyStrOfList (facts_text exFacts7)).toList = true ∧
    pyIn "s1\ns2".toList (pyStrOfList (facts_text exFacts7)).toList = false ∧
    pyIn "Snippet: s1\\ns2".toList (prompt_text exFacts7).toList = true ∧
    pyIn "Snippet: s1\ns2".toList (prompt_text exFacts7).toList = false := by
  refine ⟨rfl, ?_, ?_, ?_, ?_⟩ <;> decide

/-- C8 counterexample: a parsed response whose `fact_1` object has no
`verdict` key makes the validator emit the default verdict
`"Uncertain"`, which is not one of the four enumerated values. -/
theorem c8_counterexample :
    validate_facts_batch exFacts1 exMsgEmptyFact =
      Except.ok [("c", ⟨JsonVal.str "Uncertain", JsonVal.str "", []⟩)] ∧
    ¬ ("Uncertain" ∈ allowedVerdicts) := ⟨rfl, by decide⟩

/-- C8 amended: every verdict in the produced mapping is the synthetic
`"Error"`, the default `"Uncertain"` for a sub-object without a verdict
key, or the value copied verbatim from the parsed response's verdict
field — the code does not constrain it to the four enumerated values. -/
theorem c8_amended_verdict_provenance (facts : List (String × List Evidence))
    (msg : String) (results : List (String × FactResult)) (k : Nat) (fact : String)
    (r : FactResult)
    (h : validate_facts_batch facts msg = Except.ok results)
    (hk : results.get? k = some (fact, r)) :
    r.verdict = JsonVal.str "Error" ∨ r.verdict = JsonVal.str "Uncertain" ∨
    ∃ (llm : JsonVal) (fields2 : List (String × JsonVal)),
      extract_json_from_response msg = some llm ∧
      pyGetItem llm ("fact_" ++ toString (k + 1)) = Except.ok (JsonVal.obj fields2) ∧
      dictGet fields2 "verdict" = some r.verdict := by
  unfold validate_facts_batch at h
  cases hx : extract_json_from_response msg with
  | none =>
    rw [hx] at h
    injection h with h
    rw [← h] at hk
    rw [List.get?_map] at hk
    cases hf : facts.get? k with
    | none => rw [hf] at hk; exact absurd hk (by simp)
    | some p =>
      rw [hf] at hk
      simp only [Option.map_some', Option.some.injEq, Prod.mk.injEq] at hk
      left
      rw [← hk.2]
      rfl
  | some llm0 =>
    rw [hx] at h
    obtain ⟨hlen, hpt⟩ := processClaims_ok_pointwise llm0 facts 1 results h
    have hklt : k < results.length := by
      rcases List.get?_eq_some.mp hk with ⟨hh, _⟩
      exact hh
    obtain ⟨p, hf⟩ : ∃ p, facts.get? k = some p := by
      have hkf : k < facts.length := by rw [← hlen]; exact hklt
      exact ⟨facts.get ⟨k, hkf⟩, List.get?_eq_some.mpr ⟨hkf, rfl⟩⟩
    obtain ⟨fact2, evl2⟩ := p
    rcases hpt k fact2 evl2 hf with ⟨hck, hrk⟩ | ⟨v2, r2, hck2, hgi2, hpf2, hrk2⟩
    · rw [hrk] at hk
      injection hk with hk
      left
      rw [show r = errorRecord "No output from LLM" from by
        have := congrArg Prod.snd hk; simpa using this.symm]
      rfl
    · rw [hrk2] at hk
      injection hk with hk
      have hr2 : r2 = r := by
        have := congrArg Prod.snd hk
        simpa using this
      subst hr2
      obtain ⟨fields2, hv2, hverd⟩ := processFact_ok_inv (1 + k) evl2 v2 r2 hpf2
      subst hv2
      cases hd : dictGet fields2 "verdict" with
      | none =>
        right; left
        rw [hverd, hd]
        rfl
      | some w =>
        right; right
        refine ⟨llm0, fields2, rfl, ?_, ?_⟩
        · rw [show k + 1 = 1 + k from by omega]
          exact hgi2
        · rw [hverd, hd]
          rfl

/-- C8 amended witness: at the empty-sub-object response the produced
verdict is the default `"Uncertain"`. -/
theorem c8_amended_verdict_provenance_witness :
    (⟨JsonVal.str "Uncertain", JsonVal.str "", []⟩ : FactResult).verdict =
        JsonVal.str "Error" ∨
      (⟨JsonVal.str "Uncertain", JsonVal.str "", []⟩ : FactResult).verdict =
        JsonVal.str "Uncertain" ∨
      ∃ (llm : JsonVal) (fields2 : List (String × JsonVal)),
        extract_json_from_response exMsgEmptyFact = some llm ∧
        pyGetItem llm ("fact_" ++ toString (0 + 1)) = Except.ok (JsonVal.obj fields2) ∧
        dictGet fields2 "verdict" =
          some (⟨JsonVal.str "Uncertain", JsonVal.str "", []⟩ : FactResult).verdict :=
  c8_amended_verdict_provenance exFacts1 exMsgEmptyFact
    [("c", ⟨JsonVal.str "Uncertain", JsonVal.str "", []⟩)] 0 "c"
    ⟨JsonVal.str "Uncertain", JsonVal.str "", []⟩ rfl rfl

/-- C9: every malformed citation token — wrong arity after splitting on a
dot, non-integer components, or out-of-range indices — is discarded
silently: it resolves to no URL, dropping all malformed tokens leaves the
final URL set unchanged, and a claim sub-object with any array of
citation tokens is still processed to a result rather than a fault. -/
theorem c9_malformed_tokens_silently_dropped (idx : Nat) (evl : List Evidence)
    (toks : List String) :
    (∀ t, tokenMalformed idx evl t = true → resolveTokenStr idx evl t = none) ∧
    supporting_urls_of idx evl (toks.map JsonVal.str) =
      supporting_urls_of idx evl
        ((toks.filter (fun t => !tokenMalformed idx evl t)).map JsonVal.str) ∧
    ∀ (fields : List (String × JsonVal)) (tokens : List JsonVal),
      dictGet fields "cited_evidence" = some (JsonVal.arr tokens) →
      ∃ r, processFact idx evl (JsonVal.obj fields) = Except.ok r := by
  refine ⟨fun t ht => resolve_none_of_malformed idx evl t ht, ?_, ?_⟩
  · unfold supporting_urls_of
    rw [List.filterMap_map, List.filterMap_map]
    rw [filterMap_filter_eq (resolveToken idx evl ∘ JsonVal.str)
      (fun t => !tokenMalformed idx evl t) toks ?_]
    intro x _ hgx
    have hmal : tokenMalformed idx evl x = true := by simpa using hgx
    exact resolve_none_of_malformed idx evl x hmal
  · intro fields tokens h
    exact ⟨_, processFact_ok_of_arr idx evl fields tokens h⟩

/-- C9 witness: with one evidence item, the wrong-claim token
`EVIDENCE 2.1` resolves to nothing, dropping the malformed tokens leaves
the resolved URL set unchanged, and a sub-object citing a number is still
processed to a result. -/
theorem c9_malformed_tokens_silently_dropped_witness :
    resolveTokenStr 1 [exEv] "EVIDENCE 2.1" = none ∧
    supporting_urls_of 1 [exEv]
        (["EVIDENCE 1.1", "garbage", "EVIDENCE 2.1"].map JsonVal.str) =
      supporting_urls_of 1 [exEv]
        ((["EVIDENCE 1.1", "garbage", "EVIDENCE 2.1"].filter
          (fun t => !tokenMalformed 1 [exEv] t)).map JsonVal.str) ∧
    ∃ r, processFact 1 [exEv]
      (JsonVal.obj [("cited_evidence", JsonVal.arr [JsonVal.num "5"])]) = Except.ok r := by
  have h := c9_malformed_tokens_silently_dropped 1 [exEv]
    ["EVIDENCE 1.1", "garbage", "EVIDENCE 2.1"]
  exact ⟨h.1 "EVIDENCE 2.1" (by decide), h.2.1, h.2.2 _ _ rfl⟩

/-- C10: if the parsed response object maps some key `fact_i` (for a
claim position inside the batch) to a non-object value, or to an object
whose `cited_evidence` is a non-iterable value, the batch validator
raises: it returns an error and no result mapping at all — no per-claim
Error record is produced. -/
theorem c10_bad_fact_value_aborts_batch (facts : List (String × List Evidence))
    (msg : String) (fields : List (String × JsonVal)) (k : Nat) (fact : String)
    (evl : List Evidence) (v : JsonVal)
    (hparse : extract_json_from_response msg = some (JsonVal.obj fields))
    (hk : facts.get? k = some (fact, evl))
    (hd : dictGet fields ("fact_" ++ toString (k + 1)) = some v)
    (hbad : factShapeOk v = false) :
    ∃ e, validate_facts_batch facts msg = Except.error e := by
  obtain ⟨e, he⟩ := processClaims_error_of_badShape fields facts 1 k fact evl v hk
    (by rw [show 1 + k = k + 1 from by omega]; exact hd) hbad
  refine ⟨e, ?_⟩
  unfold validate_facts_batch
  rw [hparse]
  exact he

/-- C10 witness: a response mapping `fact_1` to the bare string `"oops"`
aborts the single-claim batch with an error. -/
theorem c10_bad_fact_value_aborts_batch_witness :
    ∃ e, validate_facts_batch exFacts1 exMsgBadFact = Except.error e :=
  c10_bad_fact_value_aborts_batch exFacts1 exMsgBadFact [("fact_1", JsonVal.str "oops")]
    0 "c" [] (JsonVal.str "oops") rfl rfl rfl rfl
